import Mathlib

/-!
# Verification of the retrieval-augmented context assembly engine

Shallow embedding of the chunking, embedding, retrieval, reranking and
context-assembly services of the `socratic-tutor` backend
(`backend/app/services/chunking_service.py`, `embedding_service.py`,
`rag_service.py`), together with proofs of the specified properties.

Conventions of the embedding:

* Python `float` scores and weights are modelled as `ℚ` (exact arithmetic);
  Python `int` as `ℤ`/`ℕ`.
* The external tokenizer (`tiktoken`) is modelled as an explicit `Encoder`
  parameter (a pair of `encode`/`decode` functions); the external embedding
  provider and the SQL index are modelled as explicit inputs.
* Python exceptions are modelled as `Except` results.
* Python `str.strip` / `str.split()` / `str.lower` are modelled on ASCII
  whitespace via `Char.isWhitespace` (Python additionally strips `\x0b`/`\x0c`;
  none of the verified properties depend on those two characters).
-/

set_option linter.unusedVariables false

namespace SocraticTutor

/-- Whitespace predicate used to model Python's `\s` / `str.strip` /
`str.split()` (space, tab, newline, carriage return). -/
def pyWS (c : Char) : Bool := c.isWhitespace

/-- Model of Python `str.strip()`: remove leading and trailing whitespace. -/
def pyStrip (s : String) : String :=
  String.mk ((s.toList.dropWhile pyWS).reverse.dropWhile pyWS).reverse

/-- Auxiliary scanner for `pySplit`: collect maximal non-whitespace runs. -/
def pySplitAux : List Char → List Char → List String
  | [], acc => if acc = [] then [] else [String.mk acc.reverse]
  | c :: rest, acc =>
    if pyWS c then
      (if acc = [] then [] else [String.mk acc.reverse]) ++ pySplitAux rest []
    else
      pySplitAux rest (c :: acc)

/-- Model of Python `str.split()` with no argument: split on runs of
whitespace, discarding empty pieces. -/
def pySplit (s : String) : List String := pySplitAux s.toList []

/-- Model of Python `str.lower()` (ASCII case folding). -/
def pyLower (s : String) : String := String.mk (s.toList.map Char.toLower)

/-- Model of the Python substring test `needle in haystack`. -/
def pySubstr (needle haystack : String) : Bool :=
  (List.range (haystack.toList.length + 1)).any
    (fun i => needle.toList.isPrefixOf (haystack.toList.drop i))

/-- Model of the Python slice `l[-k:]` (note `l[-0:]` is the whole list). -/
def pySliceLast {α : Type} (l : List α) (k : ℕ) : List α :=
  if k = 0 then l else l.drop (l.length - k)

/-! ## Chunking service (`backend/app/services/chunking_service.py`) -/

/-- Model of the external `tiktoken` tokenizer (`tiktoken.get_encoding(...)`):
an `encode`/`decode` pair. The chunking service is parameterized by it. -/
structure Encoder where
  encode : String → List ℕ
  decode : List ℕ → String

/-- `ChunkConfig` (`chunking_service.py`): chunking configuration. -/
structure ChunkConfig where
  target_chunk_size : ℕ := 600
  max_chunk_size : ℕ := 800
  overlap : ℕ := 100
  encoding_name : String := "cl100k_base"
deriving DecidableEq, Repr

/-- Metadata map attached to a `TextChunk` by `_create_chunk`
(`{"has_section_title": ..., "has_page_numbers": ...}`). -/
structure ChunkMetadata where
  has_section_title : Bool
  has_page_numbers : Bool
deriving DecidableEq, Repr

/-- `TextChunk` (`chunking_service.py`): a chunk of text with metadata. -/
structure TextChunk where
  content : String
  chunk_index : ℕ
  start_char : ℤ
  end_char : ℤ
  token_count : ℕ
  section_title : Option String
  page_numbers : Option (List ℕ)
  metadata : ChunkMetadata
deriving DecidableEq, Repr

/-- `ChunkingService.count_tokens`: `len(self.encoder.encode(text))`. -/
def count_tokens (enc : Encoder) (text : String) : ℕ :=
  (enc.encode text).length

/-- Index of the last `'\n'` in a character list, if any. -/
def lastNewlineIdx (l : List Char) : Option ℕ :=
  match l.reverse.findIdx? (· = '\n') with
  | none => none
  | some j => some (l.length - 1 - j)

/-- Scanner for `re.split(r"\n\s*\n", text)`: at each `'\n'`, the regex
matches greedily through the following whitespace run provided the run
contains another `'\n'`; the match extends to the last `'\n'` of the run.
The `skip` counter consumes the remaining characters of a matched
separator one at a time (equivalent to dropping them at once, but
structurally recursive); `acc` holds the current piece reversed. -/
def splitParasAux : List Char → List Char → ℕ → List (List Char)
  | [], acc, _ => [acc.reverse]
  | _ :: rest, acc, Nat.succ n => splitParasAux rest acc n
  | c :: rest, acc, 0 =>
    if c = '\n' then
      match lastNewlineIdx (rest.takeWhile pyWS) with
      | some i => acc.reverse :: splitParasAux rest [] (i + 1)
      | none => splitParasAux rest (c :: acc) 0
    else
      splitParasAux rest (c :: acc) 0

/-- `ChunkingService.split_into_paragraphs`: split on `\n\s*\n`, strip each
piece, keep the non-empty ones. -/
def split_into_paragraphs (text : String) : List String :=
  ((splitParasAux text.toList [] 0).map
    (fun cs => pyStrip (String.mk cs))).filter (fun p => p ≠ "")

/-- Matcher for the regex fragment `\s+(.+)$` applied to a stripped string
(no trailing newline): some non-empty whitespace prefix followed by a
non-empty remainder containing no `'\n'`. -/
def matchWsThenRest (cs : List Char) : Bool :=
  (List.range cs.length).any fun i =>
    0 < i ∧ (cs.take i).all pyWS ∧ cs.drop i ≠ [] ∧
      (cs.drop i).all (· ≠ '\n')

/-- No two adjacent `'.'` characters. -/
def noAdjacentDots : List Char → Bool
  | [] => true
  | [_] => true
  | a :: b :: rest => !(a == '.' && b == '.') && noAdjacentDots (b :: rest)

/-- Acceptor for the regex fragment `(\d+\.)+`: equivalently, a non-empty
string over digits and `'.'` that starts with a digit, ends with `'.'`,
and has no two adjacent dots (each dot is preceded by a digit and each
digit group is terminated by a dot). -/
def numDotGroups : List Char → Bool
  | [] => false
  | c :: rest =>
    c.isDigit && ((c :: rest).getLast? == some '.') &&
      (c :: rest).all (fun d => d.isDigit || d == '.') &&
      noAdjacentDots (c :: rest)

/-- Pattern `^#{1,6}\s+(.+)$` (markdown headers), `re.match` on a stripped
string. -/
def matchMarkdownHeader (cs : List Char) : Bool :=
  let hashes := cs.takeWhile (· = '#')
  1 ≤ hashes.length ∧ hashes.length ≤ 6 ∧ matchWsThenRest (cs.drop hashes.length)

/-- Pattern `^(\d+\.)+\s+(.+)$` (numbered sections like "1.2.3 Title"). -/
def matchNumberedSection (cs : List Char) : Bool :=
  (List.range (cs.length + 1)).any fun j =>
    numDotGroups (cs.take j) ∧ matchWsThenRest (cs.drop j)

/-- Pattern `^[A-Z][A-Z\s]+$` under `re.IGNORECASE` (so it in fact accepts
any ASCII letter): a letter followed by one or more letters/whitespace. -/
def matchAllCapsHeader (cs : List Char) : Bool :=
  match cs with
  | [] => false
  | c :: rest =>
    (c.isUpper ∨ c.isLower) ∧ rest ≠ [] ∧
      rest.all (fun d => d.isUpper ∨ d.isLower ∨ pyWS d)

/-- Pattern `^(Introduction|Conclusion|Summary|Abstract|References):?$`
under `re.IGNORECASE`. -/
def matchKeywordHeader (s : String) : Bool :=
  ["introduction", "conclusion", "summary", "abstract", "references"].any
    fun w => pyLower s = w ∨ pyLower s = w ++ ":"

/-- `ChunkingService.detect_section_header`: returns the stripped text when
one of the header patterns matches, or when the stripped text is short
(< 100 chars) and lacks terminal punctuation. -/
def detect_section_header (text : String) : Option String :=
  let t := pyStrip text
  if matchMarkdownHeader t.toList ∨ matchNumberedSection t.toList ∨
      matchAllCapsHeader t.toList ∨ matchKeywordHeader t then
    some t
  else if t.length < 100 ∧
      ¬(t.endsWith "." ∨ t.endsWith "!" ∨ t.endsWith "?") then
    some t
  else
    none

/-- `ChunkingService._get_overlap_text`: the last `overlap` tokens of the
text, detokenized (`tokens[-overlap:]`; for `overlap = 0` the Python slice
is the whole token list). -/
def get_overlap_text (enc : Encoder) (cfg : ChunkConfig) (text : String) : String :=
  let tokens := enc.encode text
  if tokens.length ≤ cfg.overlap then text
  else enc.decode (pySliceLast tokens cfg.overlap)

/-- Sentence-terminating punctuation, for the lookbehind `(?<=[.!?])`. -/
def isSentPunct (p : Char) : Bool := p == '.' || p == '!' || p == '?'

/-- Scanner for `re.split(r"(?<=[.!?])\s+", text)`: split at each maximal
whitespace run immediately preceded by `'.'`, `'!'` or `'?'` (the run is
consumed; the lookbehind keeps the punctuation in the left piece).
`acc` holds the current piece reversed, so its head is the previously
scanned character; when `skipping` is set the scanner is inside the
matched whitespace run and consumes whitespace until the next
non-whitespace character. -/
def splitSentAux : List Char → List Char → Bool → List (List Char)
  | [], acc, _ => [acc.reverse]
  | c :: rest, acc, true =>
    if pyWS c then splitSentAux rest acc true
    else splitSentAux rest (c :: acc) false
  | c :: rest, acc, false =>
    if pyWS c && (match acc with
        | p :: _ => isSentPunct p
        | [] => false) then
      acc.reverse :: splitSentAux rest [] true
    else
      splitSentAux rest (c :: acc) false

/-- The raw sentence list `re.split(r"(?<=[.!?])\s+", text)`. -/
def splitSentences (text : String) : List String :=
  (splitSentAux text.toList [] false).map (fun cs => String.mk cs)

/-- Loop body of `ChunkingService._split_by_sentences`: greedily pack
sentences while the packed group stays within `max_chunk_size`; an
oversized lone sentence becomes the new current group. -/
def splitBySentLoop (enc : Encoder) (cfg : ChunkConfig) :
    List String → String → List String
  | [], current => if current ≠ "" then [current] else []
  | sentence :: rest, current =>
    let test := if current ≠ "" then current ++ " " ++ sentence else sentence
    if count_tokens enc test ≤ cfg.max_chunk_size then
      splitBySentLoop enc cfg rest test
    else
      (if current ≠ "" then [current] else []) ++ splitBySentLoop enc cfg rest sentence

/-- `ChunkingService._split_by_sentences`: split text by sentences and pack
them into groups intended to fit within `max_chunk_size`. -/
def split_by_sentences (enc : Encoder) (cfg : ChunkConfig) (text : String) :
    List String :=
  splitBySentLoop enc cfg (splitSentences text) ""

/-- `ChunkingService._create_chunk`: build a `TextChunk`. The stored
`content` is stripped, while `token_count` and `end_char` are computed from
the unstripped `content` argument (as in the source, where the keyword
argument `content=content.strip()` does not rebind the local). -/
def create_chunk (enc : Encoder) (content : String) (chunk_index : ℕ)
    (start_char : ℤ) (section_title : Option String)
    (page_numbers : Option (List ℕ)) : TextChunk :=
  { content := pyStrip content
    chunk_index := chunk_index
    start_char := start_char
    end_char := start_char + content.length
    token_count := count_tokens enc content
    section_title := section_title
    page_numbers := page_numbers
    metadata :=
      { has_section_title := section_title.isSome
        has_page_numbers :=
          match page_numbers with
          | some l => l.length > 0
          | none => false } }

/-- Mutable state of the paragraph loop in `ChunkingService.chunk_text`. -/
structure ChunkState where
  chunks : List TextChunk
  current_chunk : String
  current_start_char : ℤ
  chunk_index : ℕ
  current_section : Option String
deriving Repr

/-- `current_chunk + "\n\n" + para if current_chunk else para`. -/
def testChunkStr (current para : String) : String :=
  if current ≠ "" then current ++ "\n\n" ++ para else para

/-- Emission of the sentence-level sub-chunks (`for sent_chunk in
sentence_chunks: ...` in `chunk_text`). -/
def emitSentChunks (enc : Encoder) (pages : Option (List ℕ))
    (sec : Option String) : List String → ChunkState → ChunkState
  | [], st => st
  | g :: gs, st =>
    emitSentChunks enc pages sec gs
      { st with
        chunks := st.chunks ++ [create_chunk enc g st.chunk_index st.current_start_char sec pages]
        chunk_index := st.chunk_index + 1
        current_start_char := st.current_start_char + g.length }

/-- One iteration of the paragraph loop of `ChunkingService.chunk_text`
(the body of `for para in paragraphs:`). -/
def processPara (enc : Encoder) (cfg : ChunkConfig) (pages : Option (List ℕ))
    (st : ChunkState) (para : String) : ChunkState :=
  let header := detect_section_header para
  -- `if header and len(para) < 200:` — `current_section = header` happens
  -- before the fit test, so it applies even when the header does not fit.
  let headerHit := header.isSome && para.length < 200
  let sec := bif headerHit then header else st.current_section
  let fits := headerHit &&
    count_tokens enc (testChunkStr st.current_chunk para) ≤ cfg.max_chunk_size
  if fits then
    -- header added to the current chunk; `continue`
    { st with
      current_chunk := testChunkStr st.current_chunk para
      current_section := sec }
  else
    let test_chunk := testChunkStr st.current_chunk para
    let test_tokens := count_tokens enc test_chunk
    if test_tokens ≤ cfg.target_chunk_size then
      -- paragraph fits, add it
      { st with current_chunk := test_chunk, current_section := sec }
    else if test_tokens ≤ cfg.max_chunk_size then
      -- chunk is getting large but within max: finalize it, start new
      -- chunk with overlap (`current_start_char += len(current_chunk) -
      -- len(overlap_text)` runs after `current_chunk = overlap_text`,
      -- so the increment is 0)
      let overlap_text := get_overlap_text enc cfg test_chunk
      { chunks := st.chunks ++
          [create_chunk enc test_chunk st.chunk_index st.current_start_char sec pages]
        current_chunk := overlap_text
        current_start_char :=
          st.current_start_char + ((overlap_text.length : ℤ) - overlap_text.length)
        chunk_index := st.chunk_index + 1
        current_section := sec }
    else
      -- current chunk would exceed max size
      let st1 :=
        if st.current_chunk ≠ "" then
          let overlap_text := get_overlap_text enc cfg st.current_chunk
          { chunks := st.chunks ++
              [create_chunk enc st.current_chunk st.chunk_index st.current_start_char sec pages]
            current_chunk := overlap_text ++ "\n\n" ++ para
            current_start_char :=
              st.current_start_char + ((st.current_chunk.length : ℤ) - overlap_text.length)
            chunk_index := st.chunk_index + 1
            current_section := sec }
        else
          { st with current_chunk := para, current_section := sec }
      -- if the paragraph alone exceeds max, split it by sentences
      if count_tokens enc st1.current_chunk > cfg.max_chunk_size then
        let st2 := emitSentChunks enc pages sec (split_by_sentences enc cfg para) st1
        { st2 with current_chunk := "" }
      else
        st1

/-- `ChunkingService.chunk_text`: chunk text into overlapping segments. -/
def chunk_text (enc : Encoder) (cfg : ChunkConfig) (text : String)
    (section_title : Option String) (page_numbers : Option (List ℕ)) :
    List TextChunk :=
  let paragraphs := split_into_paragraphs text
  let st := paragraphs.foldl (processPara enc cfg page_numbers)
    { chunks := []
      current_chunk := ""
      current_start_char := 0
      chunk_index := 0
      current_section := section_title }
  if pyStrip st.current_chunk ≠ "" then
    st.chunks ++
      [create_chunk enc st.current_chunk st.chunk_index st.current_start_char
        st.current_section page_numbers]
  else
    st.chunks

/-- `ChunkingService.__init__`: `self.config = config or ChunkConfig()` and
an encoder lookup. The constructor performs no validation of the config
(there is no `ConfigError` anywhere in the code base); modelled as a
fallible operation to express that construction never fails. The only
runtime failure in the source `__init__` would be an unknown
`encoding_name` inside the external `tiktoken.get_encoding`, which is out
of scope of the config-validation claims. -/
def chunking_service_init (config : Option ChunkConfig) :
    Except String ChunkConfig :=
  Except.ok (config.getD {})

/-! ## Embedding service (`backend/app/services/embedding_service.py`) -/

/-- Errors raised by the embedding service, as modelled:
`unavailable n` is the terminal
`Exception(f"Failed to generate embeddings after {n} retries")` raised
after exhausting rate-limit retries; `providerErr` is any non-rate-limit
provider exception, re-raised unmodified; `indexErr` is the `IndexError`
raised by the unconditional `embeddings[0]` in `generate_embedding`. -/
inductive EmbedError where
  | unavailable (retries : ℕ)
  | providerErr (msg : String)
  | indexErr
deriving DecidableEq, Repr

/-- One response of the external OpenAI embeddings endpoint
(`self.client.embeddings.create`): success, `RateLimitError`, or any
other provider exception. -/
inductive ProviderResp where
  | ok (vecs : List (List ℚ))
  | rateLimit
  | err (msg : String)
deriving DecidableEq, Repr

/-- The observable outcome of one `generate_embeddings` invocation:
its returned value or raised error, the sequence of `asyncio.sleep`
durations performed (in seconds), and the sequence of batches sent to the
provider (one entry per provider call, in order). -/
structure EmbedRun where
  result : Except EmbedError (List (List ℚ))
  sleeps : List ℕ
  calls : List (List String)
deriving Repr

/-- `EmbeddingService.generate_embeddings`: clean the texts (strip each,
drop blank ones), call the provider, and on `RateLimitError` retry the
same `texts` after sleeping `2 ** retry_count` seconds while
`retry_count < max_retries`; after exhausting retries raise the terminal
error. Any other provider error is re-raised immediately. The external
provider is modelled as a function from the attempt number and the batch
to a response. -/
def generate_embeddings (max_retries : ℕ)
    (provider : ℕ → List String → ProviderResp) (texts : List String)
    (retry_count : ℕ) : EmbedRun :=
  if texts = [] then ⟨Except.ok [], [], []⟩
  else
    -- cleaned_texts = [text.strip() for text in texts if text.strip()]
    let cleaned_texts := (texts.map pyStrip).filter (fun t => t ≠ "")
    if cleaned_texts = [] then ⟨Except.ok [], [], []⟩
    else
      match provider retry_count cleaned_texts with
      | ProviderResp.ok vecs => ⟨Except.ok vecs, [], [cleaned_texts]⟩
      | ProviderResp.rateLimit =>
        if retry_count < max_retries then
          let rec_run := generate_embeddings max_retries provider texts (retry_count + 1)
          ⟨rec_run.result, 2 ^ retry_count :: rec_run.sleeps,
            cleaned_texts :: rec_run.calls⟩
        else
          ⟨Except.error (EmbedError.unavailable max_retries), [], [cleaned_texts]⟩
      | ProviderResp.err m =>
        ⟨Except.error (EmbedError.providerErr m), [], [cleaned_texts]⟩
termination_by max_retries + 1 - retry_count

/-- `EmbeddingService.generate_embedding`: embed a single text via
`generate_embeddings([text])` and unwrap `embeddings[0]` (which raises
`IndexError` when the returned list is empty). -/
def generate_embedding (max_retries : ℕ)
    (provider : ℕ → List String → ProviderResp) (text : String) :
    Except EmbedError (List ℚ) :=
  match (generate_embeddings max_retries provider [text] 0).result with
  | Except.ok [] => Except.error EmbedError.indexErr
  | Except.ok (v :: _) => Except.ok v
  | Except.error e => Except.error e

/-! ## RAG service (`backend/app/services/rag_service.py`) -/

/-- `RetrievedChunk` (`rag_service.py`): container for a retrieved chunk
with metadata and scores. UUIDs are modelled as `ℕ`. -/
structure RetrievedChunk where
  chunk_id : ℕ
  content : String
  section_title : Option String
  chunk_index : ℕ
  semantic_score : ℚ
  keyword_score : ℚ
  combined_score : ℚ
  chapter_id : ℕ
  chapter_title : String
  chapter_number : ℕ
  book_title : String
  book_author : String
deriving DecidableEq, Repr

/-- One row of the `chunks` table joined with its chapter and book, with
the per-signal scores the SQL query computes for it (`semantic_score` from
the vector distance, `keyword_score` from `ts_rank`, `COALESCE`d to 0).
The external index is modelled as a list of such rows. -/
structure SearchRow where
  id : ℕ
  chapter_id : ℕ
  content : String
  section_title : Option String
  chunk_index : ℕ
  semantic_score : ℚ
  keyword_score : ℚ
  chapter_title : String
  chapter_number : ℕ
  book_title : String
  book_author : String
deriving DecidableEq, Repr

/-- `RAGService.__init__`: store the weights and reject them when
`abs((semantic_weight + keyword_weight) - 1.0) > 0.01`
(`ValueError("Semantic and keyword weights must sum to 1.0")`). -/
def rag_service_init (semantic_weight keyword_weight : ℚ) :
    Except String (ℚ × ℚ) :=
  if |semantic_weight + keyword_weight - 1| > 1 / 100 then
    Except.error "Semantic and keyword weights must sum to 1.0"
  else
    Except.ok (semantic_weight, keyword_weight)

/-- Stable insertion of a chunk into a list sorted descending by
`combined_score`: the new element goes before the first element whose
score is `≤` its own, so earlier input elements precede later ones on
ties. -/
def insertByScore (c : RetrievedChunk) : List RetrievedChunk → List RetrievedChunk
  | [] => [c]
  | d :: t =>
    if d.combined_score < c.combined_score then c :: d :: t
    else d :: insertByScore c t

/-- Stable sort descending by `combined_score`, modelling Python's stable
`list.sort(key=lambda x: x.combined_score, reverse=True)` (equal keys keep
their original relative order). -/
def sortByScore : List RetrievedChunk → List RetrievedChunk
  | [] => []
  | c :: t => insertByScore c (sortByScore t)

/-- `RAGService._hybrid_search`: the SQL query computes
`combined_score = semantic_weight * semantic_score + keyword_weight *
keyword_score` per row, orders descending by it and applies `LIMIT`.
The rows of the store are an explicit input. -/
def hybrid_search (semantic_weight keyword_weight : ℚ) (rows : List SearchRow)
    (limit : ℕ) : List RetrievedChunk :=
  (sortByScore (rows.map (fun r =>
    { chunk_id := r.id
      content := r.content
      section_title := r.section_title
      chunk_index := r.chunk_index
      semantic_score := r.semantic_score
      keyword_score := r.keyword_score
      combined_score :=
        semantic_weight * r.semantic_score + keyword_weight * r.keyword_score
      chapter_id := r.chapter_id
      chapter_title := r.chapter_title
      chapter_number := r.chapter_number
      book_title := r.book_title
      book_author := r.book_author }))).take limit

/-- The enumeration of `set(query.lower().split())` used by `_rerank`:
the distinct whitespace-separated terms of the lowercased query. Python
iterates the set in an unspecified order; `query_terms` fixes one
canonical enumeration, and the purity theorem shows the result does not
depend on the enumeration chosen. -/
def query_terms (query : String) : List String :=
  (pySplit (pyLower query)).dedup

/-- Per-chunk score update of `RAGService._rerank`, for a given
enumeration `terms` of the query term set:
`rerank_score = combined_score * 0.8 + term_match_score * 0.15 +
position_score * 0.05`, overwriting `combined_score`. -/
def rerankChunk (terms : List String) (c : RetrievedChunk) : RetrievedChunk :=
  let content_lower := pyLower c.content
  -- sum(1 for term in query_terms if term in content_lower)
  let term_matches := terms.countP (fun t => pySubstr t content_lower)
  -- min(term_matches / max(len(query_terms), 1), 1.0)
  let term_match_score : ℚ :=
    min ((term_matches : ℚ) / (max terms.length 1 : ℕ)) 1
  -- max(1.0 - chunk_index * 0.01, 0.9)
  let position_score : ℚ := max (1 - (c.chunk_index : ℚ) * (1 / 100)) (9 / 10)
  { c with combined_score :=
      c.combined_score * (8 / 10) + term_match_score * (15 / 100) +
        position_score * (5 / 100) }

/-- `RAGService._rerank` with an explicit enumeration of the query term
set: update every chunk's `combined_score` in place, then stable-sort
descending by the new score. Empty input is returned unchanged. -/
def rerankWithTerms (terms : List String) (chunks : List RetrievedChunk) :
    List RetrievedChunk :=
  if chunks = [] then chunks
  else sortByScore (chunks.map (rerankChunk terms))

/-- `RAGService._rerank`: heuristic rescoring by query term overlap and
chunk position, then stable sort descending by the updated score. -/
def rerank (chunks : List RetrievedChunk) (query : String) :
    List RetrievedChunk :=
  rerankWithTerms (query_terms query) chunks

/-- `RAGService.retrieve`: hybrid search over-fetching `top_k * 2`
candidates, threshold filter on `combined_score`, rerank, and truncation
to `top_k`. The query embedding and the store are external; the rows the
store would return are an explicit input. -/
def retrieve (semantic_weight keyword_weight : ℚ) (rows : List SearchRow)
    (query : String) (top_k : ℕ) (similarity_threshold : ℚ) :
    List RetrievedChunk :=
  let results := hybrid_search semantic_weight keyword_weight rows (top_k * 2)
  let filtered_results :=
    results.filter (fun r => r.combined_score ≥ similarity_threshold)
  let reranked_results := rerank filtered_results query
  reranked_results.take top_k

/-- Model of the Python float format `f"{x:.2f}"` on exact rationals:
round to two decimal places (ties to even, as Python rounds) and render
with exactly two fractional digits. -/
def fmt2 (q : ℚ) : String :=
  let scaled := q * 100
  let fl : ℤ := ⌊scaled⌋
  let frac : ℚ := scaled - fl
  let n : ℤ :=
    if frac > 1 / 2 then fl + 1
    else if frac < 1 / 2 then fl
    else if fl % 2 = 0 then fl else fl + 1
  let m : ℕ := n.natAbs
  (if n < 0 then "-" else "") ++ toString (m / 100) ++ "." ++
    (if m % 100 < 10 then "0" else "") ++ toString (m % 100)

/-- `RetrievedChunk.to_context_string`: format the chunk as a context
string with its source attribution line. -/
def to_context_string (c : RetrievedChunk) : String :=
  let src := "[" ++ c.book_title ++ " - Chapter " ++ toString c.chapter_number ++
    ": " ++ c.chapter_title ++
    (match c.section_title with
     | some s => " - " ++ s
     | none => "") ++ "]"
  src ++ "\n" ++ c.content

/-- The header block `context_parts[0]` of `format_context_for_llm`. -/
def contextHeaderBlock : String := "## Relevant Context from Course Materials\n"

/-- The sentinel returned by `format_context_for_llm` for empty input. -/
def noContextMsg : String := "No relevant context found in the course materials."

/-- The formatted block for source number `i`
(`f"\n### Source {i} (Score: {chunk.combined_score:.2f})\n"` followed by
the context string and a newline). -/
def chunkBlock (i : ℕ) (c : RetrievedChunk) : String :=
  "\n### Source " ++ toString i ++ " (Score: " ++ fmt2 c.combined_score ++
    ")\n" ++ to_context_string c ++ "\n"

/-- The appending loop of `format_context_for_llm`: `acc` is the string
joined so far, `current_chars` its length; a block is appended only while
`current_chars + len(chunk_str) ≤ char_budget`, and the loop `break`s
(dropping all remaining chunks) at the first block that would exceed the
budget. The source accumulates the blocks in a list and joins it at the
end; the model concatenates directly. -/
def formatLoop (char_budget : ℕ) : List RetrievedChunk → ℕ → ℕ → String → String
  | [], _, _, acc => acc
  | c :: rest, i, current_chars, acc =>
    let chunk_str := chunkBlock i c
    if current_chars + chunk_str.length > char_budget then acc
    else
      formatLoop char_budget rest (i + 1) (current_chars + chunk_str.length)
        (acc ++ chunk_str)

/-- `RAGService.format_context_for_llm`: format retrieved chunks into a
context string within an estimated token budget of 4 characters/token. -/
def format_context_for_llm (chunks : List RetrievedChunk) (max_tokens : ℕ) :
    String :=
  if chunks = [] then noContextMsg
  else
    formatLoop (max_tokens * 4) chunks 1 contextHeaderBlock.length
      contextHeaderBlock

/-! ## Theorems -/

/-- C10: for every pair of weights, store content, query, `top_k` and
threshold, `retrieve` returns at most `top_k` candidates: the over-fetched
`top_k * 2` pool is truncated to the first `top_k` entries after
reranking, inside `retrieve` itself. -/
theorem retrieve_length_le_top_k (semantic_weight keyword_weight : ℚ)
    (rows : List SearchRow) (query : String) (top_k : ℕ)
    (similarity_threshold : ℚ) :
    (retrieve semantic_weight keyword_weight rows query top_k
      similarity_threshold).length ≤ top_k := by
  unfold retrieve
  exact List.length_take_le _ _

/-- C8: when every candidate produced by the hybrid search scores below
`similarity_threshold`, `retrieve` returns the empty list as a normal
value (the model is a total function; the source raises nothing on this
path). -/
theorem retrieve_empty_when_all_below_threshold (semantic_weight
    keyword_weight : ℚ) (rows : List SearchRow) (query : String)
    (top_k : ℕ) (similarity_threshold : ℚ)
    (h : ∀ c ∈ hybrid_search semantic_weight keyword_weight rows (top_k * 2),
      c.combined_score < similarity_threshold) :
    retrieve semantic_weight keyword_weight rows query top_k
      similarity_threshold = [] := by
  unfold retrieve
  have hfil : (hybrid_search semantic_weight keyword_weight rows
      (top_k * 2)).filter
      (fun r => r.combined_score ≥ similarity_threshold) = [] := by
    rw [List.filter_eq_nil_iff]
    intro a ha
    simp only [ge_iff_le, decide_eq_true_eq, not_le]
    exact h a ha
  simp only [hfil]
  rw [rerank, rerankWithTerms]
  simp

/-- Witness for `retrieve_empty_when_all_below_threshold` at a concrete
store whose best achievable combined score is 0.8 and threshold 0.9. -/
theorem retrieve_empty_when_all_below_threshold_witness :
    retrieve (7/10) (3/10)
      [{ id := 1, chapter_id := 1, content := "abc", section_title := none,
         chunk_index := 0, semantic_score := 8/10, keyword_score := 8/10,
         chapter_title := "Ch", chapter_number := 1, book_title := "B",
         book_author := "A" }] "query" 5 (9/10) = [] :=
  retrieve_empty_when_all_below_threshold (7/10) (3/10) _ "query" 5 (9/10)
    (by
      intro c hc
      simp only [hybrid_search, sortByScore, insertByScore, List.map_cons,
        List.map_nil, List.take, List.mem_cons, List.not_mem_nil, or_false] at hc
      subst hc
      norm_num)

/-- C6: `RAGService` construction succeeds exactly when the two weights
sum to 1.0 within the 0.01 tolerance of the source check
(`abs((semantic_weight + keyword_weight) - 1.0) > 0.01` raises
`ValueError`). -/
theorem rag_init_weight_check (semantic_weight keyword_weight : ℚ) :
    (∃ w, rag_service_init semantic_weight keyword_weight = Except.ok w) ↔
      |semantic_weight + keyword_weight - 1| ≤ 1 / 100 := by
  unfold rag_service_init
  split_ifs with h
  · constructor
    · rintro ⟨w, hw⟩
      cases hw
    · intro hle
      exact absurd h (not_lt.mpr hle)
  · constructor
    · intro _
      exact le_of_not_lt h
    · intro _
      exact ⟨_, rfl⟩

/-- C9: for every blank (empty or whitespace-only) input and every
provider behaviour, `generate_embedding` neither returns a vector nor a
typed embedding error: the cleaning pass in `generate_embeddings` drops
the blank text and returns `[]`, so the unconditional `embeddings[0]`
raises `IndexError`. -/
theorem generate_embedding_blank_raises_index_error (max_retries : ℕ)
    (provider : ℕ → List String → ProviderResp) (text : String)
    (h : pyStrip text = "") :
    generate_embedding max_retries provider text =
      Except.error EmbedError.indexErr := by
  unfold generate_embedding
  rw [generate_embeddings]
  simp [h]

/-- Witness for `generate_embedding_blank_raises_index_error` on the
whitespace-only text `"  "`. -/
theorem generate_embedding_blank_raises_index_error_witness :
    pyStrip "  " = "" ∧
      generate_embedding 3 (fun _ _ => ProviderResp.rateLimit) "  " =
        Except.error EmbedError.indexErr :=
  ⟨by decide,
    generate_embedding_blank_raises_index_error 3
      (fun _ _ => ProviderResp.rateLimit) "  " (by decide)⟩

/-- C3 counterexample: the claim says construction of the chunker fails
with a `ConfigError` whenever `overlap ≥ target_chunk_size`; in the code,
`ChunkingService.__init__` performs no validation, and construction with
`overlap = 700 ≥ 600 = target_chunk_size` succeeds. -/
theorem chunking_init_overlap_counterexample :
    600 ≤ 700 ∧
      chunking_service_init
        (some { target_chunk_size := 600, max_chunk_size := 800,
                overlap := 700, encoding_name := "cl100k_base" }) =
      Except.ok { target_chunk_size := 600, max_chunk_size := 800,
                  overlap := 700, encoding_name := "cl100k_base" } := by
  exact ⟨by decide, rfl⟩

/-- C3 amended: `ChunkingService` construction never fails on any config
(it stores `config or ChunkConfig()` unvalidated; the code base contains
no `ConfigError`). -/
theorem chunking_init_always_succeeds (config : Option ChunkConfig) :
    ∃ cfg, chunking_service_init config = Except.ok cfg :=
  ⟨config.getD {}, rfl⟩

/-- C1: evaluation of `retrieve` at a failing input for the claim (and for
the repo's own test `test_similarity_threshold_filters_results`, which
asserts `result.combined_score >= 0.8` for results retrieved with
threshold 0.8). A candidate row scoring exactly 0.8 passes the threshold
filter, but `_rerank` then overwrites its `combined_score` with
`0.8 * 0.8 + 0.15 * 0 + 0.05 * 1 = 0.69 < 0.8` (query `"xyz"` shares no
term with content `"abc"`, chunk index 0), and `retrieve` returns it with
that score. -/
theorem retrieve_returns_score_below_threshold :
    ((retrieve (7/10) (3/10)
        [{ id := 1, chapter_id := 1, content := "abc", section_title := none,
           chunk_index := 0, semantic_score := 8/10, keyword_score := 8/10,
           chapter_title := "Ch", chapter_number := 1, book_title := "B",
           book_author := "A" }] "xyz" 5 (8/10)).map
      (fun c => c.combined_score)) = [69/100] ∧ ¬ ((69 : ℚ)/100 ≥ 8/10) := by
  have hterms : query_terms "xyz" = ["xyz"] := by decide
  have hsub : pySubstr "xyz" (pyLower "abc") = false := by decide
  constructor
  · unfold retrieve hybrid_search rerank rerankWithTerms
    rw [hterms]
    norm_num [sortByScore, insertByScore, rerankChunk, hsub, List.take]
  · norm_num

/-- Length invariant of the assembly loop: starting from an accumulated
string of length `cur`, the final string never exceeds
`max char_budget cur`. -/
theorem formatLoop_length_le (char_budget : ℕ) :
    ∀ (l : List RetrievedChunk) (i cur : ℕ) (acc : String),
      acc.length = cur →
      (formatLoop char_budget l i cur acc).length ≤ max char_budget cur := by
  intro l
  induction l with
  | nil =>
    intro i cur acc hacc
    rw [formatLoop, hacc]
    exact le_max_right _ _
  | cons c rest ih =>
    intro i cur acc hacc
    rw [formatLoop]
    split_ifs with h
    · rw [hacc]
      exact le_max_right _ _
    · push_neg at h
      have hlen : (acc ++ chunkBlock i c).length = cur + (chunkBlock i c).length := by
        rw [String.length_append, hacc]
      have := ih (i + 1) (cur + (chunkBlock i c).length) (acc ++ chunkBlock i c) hlen
      calc (formatLoop char_budget rest (i + 1) (cur + (chunkBlock i c).length)
            (acc ++ chunkBlock i c)).length
          ≤ max char_budget (cur + (chunkBlock i c).length) := this
        _ = char_budget := max_eq_left h
        _ ≤ max char_budget cur := le_max_left _ _

/-- C7: the string returned by `format_context_for_llm` never exceeds the
`max_tokens * 4` character budget by more than the first block (the fixed
header, or the fixed no-context sentinel for empty input): the loop stops
appending, without error, once the next formatted block would push the
running character count past `max_tokens * 4`. -/
theorem format_context_length_bound (chunks : List RetrievedChunk)
    (max_tokens : ℕ) :
    (format_context_for_llm chunks max_tokens).length ≤
      max_tokens * 4 + max contextHeaderBlock.length noContextMsg.length := by
  unfold format_context_for_llm
  split_ifs with h
  · calc noContextMsg.length
        ≤ max contextHeaderBlock.length noContextMsg.length := le_max_right _ _
      _ ≤ max_tokens * 4 + max contextHeaderBlock.length noContextMsg.length :=
        Nat.le_add_left _ _
  · calc (formatLoop (max_tokens * 4) chunks 1 contextHeaderBlock.length
          contextHeaderBlock).length
        ≤ max (max_tokens * 4) contextHeaderBlock.length :=
          formatLoop_length_le (max_tokens * 4) chunks 1 _ _ rfl
      _ ≤ max_tokens * 4 + max contextHeaderBlock.length noContextMsg.length := by
          apply max_le
          · exact Nat.le_add_right _ _
          · exact le_trans (le_max_left _ _) (Nat.le_add_left _ _)

/-- C4: reranking is pure and deterministic. The only source of
nondeterminism in `_rerank` would be the iteration order of the Python set
`set(query.lower().split())`; for every enumeration of that set (any
permutation of the distinct query terms) the output list — ordering and
scores — is identical, and the result is a function of the input values
alone (no I/O, no hidden state in the model). -/
theorem rerank_pure (chunks : List RetrievedChunk) (query : String)
    (enum : List String) (h : enum.Perm (query_terms query)) :
    rerankWithTerms enum chunks = rerank chunks query := by
  have hc : rerankChunk enum = rerankChunk (query_terms query) := by
    funext c
    simp only [rerankChunk]
    rw [h.countP_eq, h.length_eq]
  unfold rerank rerankWithTerms
  rw [hc]

/-- Witness for `rerank_pure`: the enumerations `["b", "a"]` and
`["a", "b"]` of the term set of query `"a b"` produce identical output on
a concrete chunk list. -/
theorem rerank_pure_witness :
    (["b", "a"] : List String).Perm (query_terms "a b") ∧
      rerankWithTerms ["b", "a"]
        [{ chunk_id := 1, content := "a c", section_title := none,
           chunk_index := 2, semantic_score := 1/2, keyword_score := 1/4,
           combined_score := 1/2, chapter_id := 1, chapter_title := "Ch",
           chapter_number := 1, book_title := "B", book_author := "A" }] =
      rerank
        [{ chunk_id := 1, content := "a c", section_title := none,
           chunk_index := 2, semantic_score := 1/2, keyword_score := 1/4,
           combined_score := 1/2, chapter_id := 1, chapter_title := "Ch",
           chapter_number := 1, book_title := "B", book_author := "A" }] "a b" :=
  ⟨by decide, rerank_pure _ "a b" ["b", "a"] (by decide)⟩

/-- Helper for C5: under a provider that always rate-limits, the run
starting at `retry_count = rc ≤ max_retries` sleeps
`2^rc, 2^(rc+1), …, 2^(max_retries-1)` seconds, sends the same cleaned
batch on every one of its `max_retries - rc + 1` provider calls, and ends
with the terminal error. -/
theorem generate_embeddings_rateLimit_run (max_retries : ℕ)
    (provider : ℕ → List String → ProviderResp) (texts : List String)
    (hne : (texts.map pyStrip).filter (fun t => t ≠ "") ≠ [])
    (hrl : ∀ i b, provider i b = ProviderResp.rateLimit) :
    ∀ n rc, max_retries - rc = n → rc ≤ max_retries →
      generate_embeddings max_retries provider texts rc =
        ⟨Except.error (EmbedError.unavailable max_retries),
          (List.range n).map (fun j => 2 ^ (rc + j)),
          List.replicate (n + 1) ((texts.map pyStrip).filter (fun t => t ≠ ""))⟩ := by
  have htexts : texts ≠ [] := by
    intro h
    rw [h] at hne
    exact hne rfl
  intro n
  induction n with
  | zero =>
    intro rc hn hle
    have hrc : rc = max_retries := by omega
    rw [generate_embeddings]
    simp only [if_neg htexts, if_neg hne, hrl]
    rw [if_neg (by omega : ¬ rc < max_retries), hrc]
    simp
  | succ n ih =>
    intro rc hn hle
    have hlt : rc < max_retries := by omega
    rw [generate_embeddings]
    simp only [if_neg htexts, if_neg hne, hrl]
    rw [if_pos hlt, ih (rc + 1) (by omega) (by omega)]
    simp only [EmbedRun.mk.injEq, true_and]
    constructor
    · rw [List.range_succ_eq_map, List.map_cons, List.map_map]
      simp only [Nat.add_zero]
      congr 1
      apply List.map_congr_left
      intro j _
      simp only [Function.comp_apply]
      congr 1
      omega
    · rw [← List.replicate_succ]

/-- C5: for any batch with at least one non-blank text, (i) if the
provider rate-limits on every attempt, `generate_embeddings` retries the
same cleaned batch with exponential backoff of `2^attempt` seconds for
`max_retries` retries beyond the initial call (so `max_retries + 1`
identical provider calls, sleeping `2^0, …, 2^(max_retries-1)` seconds in
between) and then fails with the terminal error, returning no partial
results; (ii) on any non-rate-limit provider error on the first attempt,
it fails immediately: exactly one provider call and no sleeps. -/
theorem generate_embeddings_retry_spec (max_retries : ℕ)
    (provider : ℕ → List String → ProviderResp) (texts : List String)
    (hne : (texts.map pyStrip).filter (fun t => t ≠ "") ≠ []) :
    ((∀ i b, provider i b = ProviderResp.rateLimit) →
      generate_embeddings max_retries provider texts 0 =
        ⟨Except.error (EmbedError.unavailable max_retries),
          (List.range max_retries).map (fun j => 2 ^ j),
          List.replicate (max_retries + 1)
            ((texts.map pyStrip).filter (fun t => t ≠ ""))⟩) ∧
    (∀ m, provider 0 ((texts.map pyStrip).filter (fun t => t ≠ "")) =
        ProviderResp.err m →
      generate_embeddings max_retries provider texts 0 =
        ⟨Except.error (EmbedError.providerErr m), [],
          [(texts.map pyStrip).filter (fun t => t ≠ "")]⟩) := by
  have htexts : texts ≠ [] := by
    intro h
    rw [h] at hne
    exact hne rfl
  constructor
  · intro hrl
    have := generate_embeddings_rateLimit_run max_retries provider texts hne
      hrl max_retries 0 (by omega) (by omega)
    rw [this]
    simp
  · intro m hm
    rw [generate_embeddings]
    simp only [if_neg htexts, if_neg hne, hm]

/-- Witness for `generate_embeddings_retry_spec`: with `max_retries = 3`
and an always-rate-limiting provider, the run on `["hi"]` sleeps 1, 2 and
4 seconds, sends the batch `["hi"]` four times, and fails terminally. -/
theorem generate_embeddings_retry_spec_witness :
    ((["hi"].map pyStrip).filter (fun t => t ≠ "") ≠ []) ∧
      generate_embeddings 3 (fun _ _ => ProviderResp.rateLimit) ["hi"] 0 =
        ⟨Except.error (EmbedError.unavailable 3), [1, 2, 4],
          List.replicate 4 ["hi"]⟩ := by
  refine ⟨by decide, ?_⟩
  have h := (generate_embeddings_retry_spec 3
    (fun _ _ => ProviderResp.rateLimit) ["hi"] (by decide)).1
    (fun _ _ => rfl)
  rw [h]
  simp only [EmbedRun.mk.injEq, true_and]
  exact ⟨by decide, by decide⟩

/-- A concrete instance of the tokenizer interface for evaluating the
chunker on explicit inputs: one token per character. -/
def charEnc : Encoder :=
  { encode := fun s => s.toList.map Char.toNat
    decode := fun ts => String.mk (ts.map Char.ofNat) }

/-- C2 counterexample: the claim says every chunk produced by
`chunk_text` has `token_count ≤ max_chunk_size`. With a 10-token single
sentence (no sentence boundary anywhere) and `max_chunk_size = 5`, the
sentence-level sub-split has nothing to split at and emits the whole
sentence as one chunk of 10 tokens. -/
theorem chunk_text_token_bound_counterexample :
    ((chunk_text charEnc
        { target_chunk_size := 3, max_chunk_size := 5, overlap := 1,
          encoding_name := "cl100k_base" } "abcdefghij" none none).map
      (fun c => c.token_count)) = [10] ∧ ¬ (10 ≤ 5) := by
  exact ⟨by decide, by decide⟩

/-- The invariant satisfied by every chunk `chunk_text` emits: its token
count fits within `max_chunk_size`, or it is a single sentence as
produced by the sentence splitter (whose token count may exceed the
bound). -/
def GoodChunk (enc : Encoder) (cfg : ChunkConfig) (c : TextChunk) : Prop :=
  c.token_count ≤ cfg.max_chunk_size ∨
    ∃ t s, s ∈ splitSentences t ∧ c.content = pyStrip s ∧
      c.token_count = count_tokens enc s

/-- Loop invariant of `chunk_text`: the pending `current_chunk` is empty
or within `max_chunk_size`, and every emitted chunk is `GoodChunk`. -/
def ChunkInv (enc : Encoder) (cfg : ChunkConfig) (st : ChunkState) : Prop :=
  (st.current_chunk = "" ∨
    count_tokens enc st.current_chunk ≤ cfg.max_chunk_size) ∧
  ∀ c ∈ st.chunks, GoodChunk enc cfg c

/-- The overlap seed text stays within `max_chunk_size` whenever its
source text does, provided `overlap ≤ max_chunk_size` and re-encoding a
decoded token list does not produce more tokens than were decoded. -/
theorem count_tokens_overlap_le (enc : Encoder) (cfg : ChunkConfig)
    (s : String) (hOM : cfg.overlap ≤ cfg.max_chunk_size)
    (hRT : ∀ ts, (enc.encode (enc.decode ts)).length ≤ ts.length)
    (hs : count_tokens enc s ≤ cfg.max_chunk_size) :
    count_tokens enc (get_overlap_text enc cfg s) ≤ cfg.max_chunk_size := by
  simp only [get_overlap_text]
  split_ifs with h
  · exact hs
  · unfold count_tokens at *
    refine le_trans (hRT _) ?_
    simp only [pySliceLast]
    split_ifs with h0
    · exact hs
    · rw [List.length_drop]
      omega

/-- Every group emitted by the sentence-packing loop is within
`max_chunk_size` or is an element of the ambient sentence list `S`. -/
theorem splitBySentLoop_mem (enc : Encoder) (cfg : ChunkConfig)
    (S : List String) :
    ∀ (sents : List String) (current : String),
      (∀ s ∈ sents, s ∈ S) →
      (current = "" ∨ count_tokens enc current ≤ cfg.max_chunk_size ∨
        current ∈ S) →
      ∀ g ∈ splitBySentLoop enc cfg sents current,
        count_tokens enc g ≤ cfg.max_chunk_size ∨ g ∈ S := by
  intro sents
  induction sents with
  | nil =>
    intro current hS hcur g hg
    rw [splitBySentLoop] at hg
    split_ifs at hg with h
    · rw [List.mem_singleton] at hg
      subst hg
      rcases hcur with h0 | h1 | h2
      · exact absurd h0 h
      · exact Or.inl h1
      · exact Or.inr h2
    · exact absurd hg (List.not_mem_nil g)
  | cons s rest ih =>
    intro current hS hcur g hg
    simp only [splitBySentLoop] at hg
    have hS' : ∀ s' ∈ rest, s' ∈ S := fun s' h' => hS s' (List.mem_cons_of_mem _ h')
    by_cases hne : current ≠ ""
    · simp only [if_pos hne] at hg
      split_ifs at hg with htest
      · exact ih _ hS' (Or.inr (Or.inl htest)) g hg
      · rw [List.mem_append, List.mem_singleton] at hg
        rcases hg with hg | hg
        · subst hg
          rcases hcur with h0 | h1 | h2
          · exact absurd h0 hne
          · exact Or.inl h1
          · exact Or.inr h2
        · exact ih _ hS' (Or.inr (Or.inr (hS s (List.mem_cons_self _ _)))) g hg
    · simp only [if_neg hne] at hg
      split_ifs at hg with htest
      · exact ih _ hS' (Or.inr (Or.inl htest)) g hg
      · rw [List.nil_append] at hg
        exact ih _ hS' (Or.inr (Or.inr (hS s (List.mem_cons_self _ _)))) g hg

/-- Every group `_split_by_sentences` returns is within `max_chunk_size`
or is a single raw sentence of its input. -/
theorem split_by_sentences_mem (enc : Encoder) (cfg : ChunkConfig)
    (t : String) :
    ∀ g ∈ split_by_sentences enc cfg t,
      count_tokens enc g ≤ cfg.max_chunk_size ∨ g ∈ splitSentences t :=
  splitBySentLoop_mem enc cfg (splitSentences t) (splitSentences t) ""
    (fun _ h => h) (Or.inl rfl)

/-- Chunks emitted by the sentence-level emission loop are `GoodChunk`
whenever the incoming chunks are and every group comes from the sentence
split of some paragraph. -/
theorem emitSentChunks_good (enc : Encoder) (cfg : ChunkConfig)
    (pages : Option (List ℕ)) (sec : Option String) (para : String) :
    ∀ (gs : List String) (st : ChunkState),
      (∀ g ∈ gs, count_tokens enc g ≤ cfg.max_chunk_size ∨
        g ∈ splitSentences para) →
      (∀ c ∈ st.chunks, GoodChunk enc cfg c) →
      ∀ c ∈ (emitSentChunks enc pages sec gs st).chunks,
        GoodChunk enc cfg c := by
  intro gs
  induction gs with
  | nil =>
    intro st _ hst c hc
    rw [emitSentChunks] at hc
    exact hst c hc
  | cons g gs ih =>
    intro st hgs hst c hc
    rw [emitSentChunks] at hc
    refine ih _ (fun g' h' => hgs g' (List.mem_cons_of_mem _ h')) ?_ c hc
    intro c' hc'
    rw [List.mem_append] at hc'
    rcases hc' with h | h
    · exact hst c' h
    · rw [List.mem_singleton] at h
      subst h
      rcases hgs g (List.mem_cons_self _ _) with hle | hmem
      · exact Or.inl hle
      · exact Or.inr ⟨para, g, hmem, rfl, rfl⟩

/-- One paragraph step of `chunk_text` preserves the loop invariant,
provided `target_chunk_size ≤ max_chunk_size`,
`overlap ≤ max_chunk_size` (both part of the spec's `ChunkConfig`
invariant `overlap < target_chunk_size ≤ max_chunk_size`) and the
tokenizer round-trip is non-expanding. -/
theorem processPara_inv (enc : Encoder) (cfg : ChunkConfig)
    (hTM : cfg.target_chunk_size ≤ cfg.max_chunk_size)
    (hOM : cfg.overlap ≤ cfg.max_chunk_size)
    (hRT : ∀ ts, (enc.encode (enc.decode ts)).length ≤ ts.length)
    (pages : Option (List ℕ)) (st : ChunkState) (para : String)
    (h : ChunkInv enc cfg st) :
    ChunkInv enc cfg (processPara enc cfg pages st para) := by
  obtain ⟨hcur, hchunks⟩ := h
  simp only [processPara]
  split_ifs with hfits htgt hmax hne hbig hbig2
  · -- header fits: extend current chunk
    refine ⟨Or.inr ?_, hchunks⟩
    simp only [Bool.and_eq_true, decide_eq_true_eq] at hfits
    exact hfits.2
  · -- paragraph fits within target
    exact ⟨Or.inr (le_trans htgt hTM), hchunks⟩
  · -- within max: finalize and seed overlap
    constructor
    · exact Or.inr (count_tokens_overlap_le enc cfg _ hOM hRT hmax)
    · intro c hc
      rw [List.mem_append, List.mem_singleton] at hc
      rcases hc with hc | hc
      · exact hchunks c hc
      · subst hc
        exact Or.inl hmax
  · -- over max, pending chunk finalized, and the merged overlap + para
    -- still exceeds max: sentence-split the paragraph
    constructor
    · exact Or.inl rfl
    · refine emitSentChunks_good enc cfg pages _ para _ _
        (split_by_sentences_mem enc cfg para) ?_
      intro c hc
      rw [List.mem_append, List.mem_singleton] at hc
      rcases hc with hc | hc
      · exact hchunks c hc
      · subst hc
        rcases hcur with h0 | h1
        · exact absurd h0 hne
        · exact Or.inl h1
  · -- over max, pending chunk finalized, overlap + para within max
    constructor
    · exact Or.inr (not_lt.mp hbig)
    · intro c hc
      rw [List.mem_append, List.mem_singleton] at hc
      rcases hc with hc | hc
      · exact hchunks c hc
      · subst hc
        rcases hcur with h0 | h1
        · exact absurd h0 hne
        · exact Or.inl h1
  · -- no pending chunk, paragraph alone exceeds max: sentence-split it
    refine ⟨Or.inl rfl, ?_⟩
    exact emitSentChunks_good enc cfg pages _ para _ _
      (split_by_sentences_mem enc cfg para) hchunks
  · -- no pending chunk, paragraph within max
    exact ⟨Or.inr (not_lt.mp hbig2), hchunks⟩

/-- The paragraph fold of `chunk_text` preserves the loop invariant. -/
theorem foldl_processPara_inv (enc : Encoder) (cfg : ChunkConfig)
    (hTM : cfg.target_chunk_size ≤ cfg.max_chunk_size)
    (hOM : cfg.overlap ≤ cfg.max_chunk_size)
    (hRT : ∀ ts, (enc.encode (enc.decode ts)).length ≤ ts.length)
    (pages : Option (List ℕ)) :
    ∀ (paras : List String) (st : ChunkState), ChunkInv enc cfg st →
      ChunkInv enc cfg (paras.foldl (processPara enc cfg pages) st) := by
  intro paras
  induction paras with
  | nil => exact fun st h => h
  | cons p ps ih =>
    intro st h
    exact ih _ (processPara_inv enc cfg hTM hOM hRT pages st p h)

/-- C2 amended: under the spec's own config invariant
(`target_chunk_size ≤ max_chunk_size` and `overlap ≤ max_chunk_size`) and
a tokenizer whose decode-then-encode round-trip does not expand, every
chunk produced by `chunk_text` has `token_count ≤ max_chunk_size`
*except* chunks whose content is a single sentence as emitted by the
sentence splitter (such a sentence contains no split point, so the
sentence-level sub-split of an oversized paragraph emits it whole and its
token count may exceed the bound). -/
theorem chunk_text_token_bound (enc : Encoder) (cfg : ChunkConfig)
    (hTM : cfg.target_chunk_size ≤ cfg.max_chunk_size)
    (hOM : cfg.overlap ≤ cfg.max_chunk_size)
    (hRT : ∀ ts, (enc.encode (enc.decode ts)).length ≤ ts.length)
    (text : String) (section_title : Option String)
    (page_numbers : Option (List ℕ)) :
    ∀ c ∈ chunk_text enc cfg text section_title page_numbers,
      c.token_count ≤ cfg.max_chunk_size ∨
        ∃ t s, s ∈ splitSentences t ∧ c.content = pyStrip s ∧
          c.token_count = count_tokens enc s := by
  have hinv := foldl_processPara_inv enc cfg hTM hOM hRT page_numbers
    (split_into_paragraphs text)
    { chunks := []
      current_chunk := ""
      current_start_char := 0
      chunk_index := 0
      current_section := section_title }
    ⟨Or.inl rfl, fun c hc => absurd hc (List.not_mem_nil c)⟩
  intro c hc
  simp only [chunk_text] at hc
  split_ifs at hc with hstr
  · rw [List.mem_append, List.mem_singleton] at hc
    rcases hc with hc | hc
    · exact hinv.2 c hc
    · subst hc
      have hne : (List.foldl (processPara enc cfg page_numbers)
          { chunks := [], current_chunk := "", current_start_char := 0,
            chunk_index := 0, current_section := section_title }
          (split_into_paragraphs text)).current_chunk ≠ "" := by
        intro he
        rw [he] at hstr
        exact hstr rfl
      rcases hinv.1 with h0 | h1
      · exact absurd h0 hne
      · exact Or.inl h1
  · exact hinv.2 c hc

/-- Witness for `chunk_text_token_bound` at the character tokenizer and a
concrete config and text. -/
theorem chunk_text_token_bound_witness :
    (3 ≤ 5 ∧ 1 ≤ 5) ∧
      ∀ c ∈ chunk_text charEnc
          { target_chunk_size := 3, max_chunk_size := 5, overlap := 1,
            encoding_name := "cl100k_base" } "abcdefghij" none none,
        c.token_count ≤ 5 ∨
          ∃ t s, s ∈ splitSentences t ∧ c.content = pyStrip s ∧
            c.token_count = count_tokens charEnc s :=
  ⟨⟨by decide, by decide⟩,
    chunk_text_token_bound charEnc
      { target_chunk_size := 3, max_chunk_size := 5, overlap := 1,
        encoding_name := "cl100k_base" } (by decide) (by decide)
      (fun ts => by simp [charEnc, String.toList]) "abcdefghij" none none⟩

end SocraticTutor
